import Mathlib

/-!
Verification development for the NBRB exchange-rate dashboard's
data-retrieval core (`app.py`): the chunked dynamics fetcher
(`chunked_dynamics_fetch`), the multi-currency aggregator with its
currency-identifier resolver (`rates_for_currencies`), and the
module-level 7-day snapshot comparison.

Dates are modelled as integers (days); rates as exact rationals.
The upstream HTTP API is modelled as an oracle function from a request
to a response; `requests.get` + `raise_for_status` semantics become an
explicit response datatype (404 / success-with-payload / other error).
-/

namespace Exrates

/-- One point of a dynamics series: `{"Date": ..., "Cur_OfficialRate": ...}`.
`rate` is `Cur_OfficialRate`, the BYN value of `Cur_Scale` units. -/
structure RatePoint where
  date : ℤ
  rate : ℚ
deriving DecidableEq, Repr

/-- Outcome of one `requests.get` on the dynamics endpoint, as observed by
the code: HTTP 404, a successful JSON payload, or any other failure (which
`raise_for_status` turns into an exception). -/
inductive FetchResp where
  | notFound
  | ok (pts : List RatePoint)
  | err
deriving DecidableEq, Repr

/-- `drop_duplicates(subset="Date")`: keep the first occurrence of each date,
in scanning order. -/
def dedupByDate : List RatePoint → List RatePoint
  | [] => []
  | p :: ps => p :: dedupByDate (ps.filter (fun q => q.date != p.date))
termination_by l => l.length
decreasing_by
  simp only [List.length_cons]
  exact Nat.lt_succ_of_le (List.length_filter_le _ _)

/-- The by-date order used by `sort_values("Date")`. -/
def dateLE (p q : RatePoint) : Prop := p.date ≤ q.date

instance : DecidableRel dateLE := fun p q => inferInstanceAs (Decidable (p.date ≤ q.date))

instance : IsTotal RatePoint dateLE := ⟨fun p q => Int.le_total p.date q.date⟩

instance : IsTrans RatePoint dateLE := ⟨fun _ _ _ h h' => le_trans h h'⟩

/-- `sort_values("Date")`: sort ascending by date.  After deduplication the
dates are pairwise distinct, so any comparison sort produces the same list. -/
def sortByDate (l : List RatePoint) : List RatePoint := List.insertionSort dateLE l

/-- The window loop of `chunked_dynamics_fetch` (`app.py` lines 63–79):
starting at `s`, repeatedly take the window `[s, min (s+364) e]`, issue one
fetch, skip on 404, abort on any other error, accumulate the payload
otherwise, and continue from the day after the window's end.
Returns the trace of `(startdate, enddate)` requests actually issued and
either an error or the concatenation of the partial series in window order. -/
def fetchLoop (fetch : ℤ → ℤ → FetchResp) (s e : ℤ) :
    List (ℤ × ℤ) × Except Unit (List RatePoint) :=
  if _h : s ≤ e then
    match fetch s (min (s + 364) e) with
    | .notFound =>
        let r := fetchLoop fetch (min (s + 364) e + 1) e
        ((s, min (s + 364) e) :: r.1, r.2)
    | .err => ([(s, min (s + 364) e)], .error ())
    | .ok pts =>
        let r := fetchLoop fetch (min (s + 364) e + 1) e
        ((s, min (s + 364) e) :: r.1, r.2.map (fun l => pts ++ l))
  else ([], .ok [])
termination_by (e + 1 - s).toNat
decreasing_by all_goals (simp_wf; omega)

/-- `chunked_dynamics_fetch(cur_id, start, end)` (`app.py` lines 54–84):
empty result when `end < start`, otherwise run the window loop and, on
success, deduplicate by date (keep first) and sort ascending by date.
The first component is the trace of issued requests. -/
def chunked_dynamics_fetch (fetch : ℤ → ℤ → FetchResp) (start e : ℤ) :
    List (ℤ × ℤ) × Except Unit (List RatePoint) :=
  if e < start then ([], .ok [])
  else
    ((fetchLoop fetch start e).1,
     (fetchLoop fetch start e).2.map (fun l => sortByDate (dedupByDate l)))

/-- The chronological partition of `[s, e]` into windows of at most 365 days,
as produced by the loop: `[s, min (s+364) e]`, then the partition of the rest. -/
def windows (s e : ℤ) : List (ℤ × ℤ) :=
  if h : s ≤ e then (s, min (s + 364) e) :: windows (min (s + 364) e + 1) e
  else []
termination_by (e + 1 - s).toNat
decreasing_by simp_wf; omega

/-- One row of the `/currencies` directory, the columns kept by
`fetch_currency_list`: `Cur_ID`, `Cur_Abbreviation`, `Cur_Scale`, `Cur_Name`,
`Cur_DateStart`, `Cur_DateEnd`. -/
structure CurrencyRecord where
  curId : ℤ
  abbreviation : String
  scale : ℤ
  name : String
  dateStart : ℤ
  dateEnd : ℤ
deriving DecidableEq, Repr

/-- `currency_map[currency_map["Cur_Abbreviation"] == code]` (`app.py` line 94):
the directory rows whose abbreviation equals `code`, in directory order. -/
def matchingRows (code : String) (dir : List CurrencyRecord) : List CurrencyRecord :=
  dir.filter (fun r => r.abbreviation == code)

/-- Row filter of `app.py` line 102: validity window covers all of `[s, e]`. -/
def coversFull (s e : ℤ) (r : CurrencyRecord) : Bool :=
  decide (r.dateStart ≤ s) && decide (e ≤ r.dateEnd)

/-- Row filter of `app.py` line 105: validity window covers `s`. -/
def coversStart (s : ℤ) (r : CurrencyRecord) : Bool :=
  decide (r.dateStart ≤ s) && decide (s ≤ r.dateEnd)

/-- The identifier-resolution step of `rates_for_currencies`
(`app.py` lines 94–109): filter by code, prefer a row covering the whole
`[s, e]`, otherwise fall back to a row covering `s`, and take the first
remaining row (`valid.iloc[0]`); `none` when no candidate remains. -/
def resolve (code : String) (dir : List CurrencyRecord) (s e : ℤ) :
    Option CurrencyRecord :=
  let rows := matchingRows code dir
  let valid := rows.filter (coversFull s e)
  let valid := if valid.isEmpty then rows.filter (coversStart s) else valid
  valid.head?

/-- What the body of the per-code loop of `rates_for_currencies` does with one
code, short of an exception: skip with a `st.warning` (code absent from the
directory), skip with a `st.info` (no covering `Cur_ID`, or empty dynamics),
or contribute a column of raw `Cur_OfficialRate` values. -/
inductive CodeOutcome where
  /-- `st.warning(f"Currency {code} not found in NBRB list.")`, then `continue`. -/
  | notInList
  /-- `st.info` "no suitable Cur_ID for this period", then `continue`. -/
  | noValidId
  /-- `st.info` "no dynamics data", then `continue`. -/
  | emptyDynamics
  /-- the `Date`-indexed column kept for this code (`series.append`). -/
  | column (pts : List RatePoint)
deriving DecidableEq, Repr

/-- One iteration of the per-code loop of `rates_for_currencies`
(`app.py` lines 92–120).  The upstream oracle `fetch` takes the `Cur_ID`
and the window bounds.  Note lines 110 and 118–119: the scale lookup is
commented out and the column holds `Cur_OfficialRate` unchanged. -/
def processCode (fetch : ℤ → ℤ → ℤ → FetchResp) (dir : List CurrencyRecord)
    (s e : ℤ) (code : String) : Except Unit CodeOutcome :=
  if (matchingRows code dir).isEmpty then .ok .notInList
  else
    match resolve code dir s e with
    | none => .ok .noValidId
    | some r =>
        match (chunked_dynamics_fetch (fetch r.curId)
                (max s r.dateStart) (min e r.dateEnd)).2 with
        | .error _ => .error ()
        | .ok pts => if pts.isEmpty then .ok .emptyDynamics else .ok (.column pts)

/-- `rates_for_currencies(codes, currency_map, start, end)`
(`app.py` lines 86–124), up to the per-code columns: process the codes in
input order; a skipped code contributes nothing; an exception raised while
fetching one code propagates out of the function (there is no per-code
`try`/`except`), so the whole call yields an error. -/
def rates_for_currencies (fetch : ℤ → ℤ → ℤ → FetchResp) (codes : List String)
    (dir : List CurrencyRecord) (s e : ℤ) :
    Except Unit (List (String × List RatePoint)) :=
  match codes with
  | [] => .ok []
  | code :: rest =>
    match processCode fetch dir s e code with
    | .error _ => .error ()
    | .ok o =>
      match rates_for_currencies fetch rest dir s e with
      | .error _ => .error ()
      | .ok t =>
        match o with
        | .column pts => .ok ((code, pts) :: t)
        | _ => .ok t

/-! ### The 7-day snapshot comparison (`app.py` lines 186–210)

Pandas float arithmetic is modelled with exact rationals extended by `NaN`
and signed infinities; rounding is abstracted away (irrelevant to the
zero/missing-denominator behaviour under study). -/

/-- A pandas float cell: a finite value, `NaN`, `+inf` or `-inf`. -/
inductive FVal where
  | num (q : ℚ)
  | nan
  | pinf
  | ninf
deriving DecidableEq, Repr

/-- Float subtraction: `NaN` propagates; `inf - inf = NaN`. -/
def FVal.sub : FVal → FVal → FVal
  | nan, _ => nan
  | _, nan => nan
  | num a, num b => num (a - b)
  | num _, pinf => ninf
  | num _, ninf => pinf
  | pinf, pinf => nan
  | pinf, _ => pinf
  | ninf, ninf => nan
  | ninf, _ => ninf

/-- Float division: `NaN` propagates; a finite nonzero value over zero is a
signed infinity, `0/0` is `NaN`. -/
def FVal.div : FVal → FVal → FVal
  | nan, _ => nan
  | _, nan => nan
  | num a, num b =>
      if b = 0 then (if a = 0 then nan else if 0 < a then pinf else ninf)
      else num (a / b)
  | num _, _ => num 0
  | pinf, num b => if b < 0 then ninf else pinf
  | ninf, num b => if b < 0 then pinf else ninf
  | _, _ => nan

/-- Float multiplication, as needed for `* 100`: `NaN` propagates; an
infinity times a positive constant keeps its sign. -/
def FVal.mul : FVal → FVal → FVal
  | nan, _ => nan
  | _, nan => nan
  | num a, num b => num (a * b)
  | pinf, num b => if b = 0 then nan else if 0 < b then pinf else ninf
  | ninf, num b => if b = 0 then nan else if 0 < b then ninf else pinf
  | num a, pinf => if a = 0 then nan else if 0 < a then pinf else ninf
  | num a, ninf => if a = 0 then nan else if 0 < a then ninf else pinf
  | pinf, pinf => pinf
  | pinf, ninf => ninf
  | ninf, pinf => ninf
  | ninf, ninf => pinf

/-- The left merge on `Code` (`app.py` line 197): `Rate_7d_ago` is the first
matching row of `rates_7`, else `NaN`.  The `try`/`except` of lines 187–194
turns a failed snapshot fetch into an empty `rates_7` table. -/
def rate7dAgo (rates7src : Except Unit (List (String × ℚ))) (code : String) : FVal :=
  let rates7 := match rates7src with | .ok l => l | .error _ => []
  match rates7.find? (fun p => p.1 == code) with
  | some p => .num p.2
  | none => .nan

/-- `Change_abs` and `Change_pct` for one row (`app.py` lines 199–201):
`Change_abs = Rate_BYN_per_scale - Rate_7d_ago`,
`Change_pct = Change_abs / Rate_7d_ago * 100`. -/
def weeklyChange (rates7src : Except Unit (List (String × ℚ)))
    (code : String) (rate : ℚ) : FVal × FVal :=
  let r7 := rate7dAgo rates7src code
  let changeAbs := FVal.sub (.num rate) r7
  (changeAbs, FVal.mul (FVal.div changeAbs r7) (.num 100))

/-- The display rule of `app.py` line 210:
`f"{x:.2f}%" if pd.notna(x) else "—"` — `none` is the "—" sentinel, and
`some v` stands for the formatted percent string rendered from `v`
(`pd.notna` is false exactly on `NaN`). -/
def displayChangePct (v : FVal) : Option FVal :=
  if v = .nan then none else some v

/-! ### Concrete upstream oracles and directories used by concrete checks -/

/-- An upstream that answers 404 on every dynamics request. -/
def oracleNF : ℤ → ℤ → FetchResp := fun _ _ => FetchResp.notFound

/-- An upstream that fails every dynamics request with a non-404 error. -/
def oracleErr : ℤ → ℤ → FetchResp := fun _ _ => FetchResp.err

/-- An upstream returning a fixed out-of-order payload with a duplicate
date. -/
def oracleDup : ℤ → ℤ → FetchResp := fun _ _ =>
  FetchResp.ok [⟨1, 2⟩, ⟨0, 1⟩, ⟨1, 3⟩]

/-- A per-identifier upstream that answers 404 on every request. -/
def oracleNF3 : ℤ → ℤ → ℤ → FetchResp := fun _ _ _ => FetchResp.notFound

/-- A directory with two overlapping USD records (tie-break check), a EUR
record covering only the start of the range, and a JPY record starting
after the range (no candidate). -/
def dir7 : List CurrencyRecord :=
  [⟨1, "USD", 1, "US Dollar", 0, 100⟩,
   ⟨2, "USD", 1, "US Dollar (new)", 0, 200⟩,
   ⟨3, "EUR", 1, "Euro", 0, 5⟩,
   ⟨4, "JPY", 100, "Yen", 50, 60⟩]

/-- Directory with two healthy currencies for the aggregation-abort check. -/
def dirC : List CurrencyRecord :=
  [⟨1, "AAA", 1, "Currency A", 0, 1000⟩,
   ⟨2, "BBB", 1, "Currency B", 0, 1000⟩]

/-- An upstream failing identifier 1 with a non-404 error while serving
identifier 2 normally. -/
def oracleErrA : ℤ → ℤ → ℤ → FetchResp := fun curId _ _ =>
  if curId = 1 then FetchResp.err else FetchResp.ok [⟨0, 1⟩]

/-- Directory with a single JPY record whose `Cur_Scale` is 100. -/
def dirJ : List CurrencyRecord :=
  [⟨292, "JPY", 100, "Japanese yen", 0, 100000⟩]

/-- An upstream whose every dynamics payload is one point with
`Cur_OfficialRate` 5/2 (the BYN value of 100 yen) on day 0. -/
def oracleJ : ℤ → ℤ → ℤ → FetchResp := fun _ _ _ =>
  FetchResp.ok [⟨0, 5 / 2⟩]

/-! ### Basic lemmas about the window loop -/

/-- Induction along the loop's control flow: from `s` the loop moves to
`min (s + 364) e + 1`. -/
theorem rangeRec (P : ℤ → ℤ → Prop)
    (base : ∀ s e, e < s → P s e)
    (step : ∀ s e, s ≤ e → P (min (s + 364) e + 1) e → P s e) :
    ∀ s e, P s e := by
  have key : ∀ n : ℕ, ∀ s e : ℤ, (e + 1 - s).toNat ≤ n → P s e := by
    intro n
    induction n with
    | zero => intro s e h; exact base s e (by omega)
    | succ n ih =>
        intro s e h
        rcases lt_or_le e s with hlt | hle
        · exact base s e hlt
        · exact step s e hle (ih _ e (by omega))
  intro s e
  exact key (e + 1 - s).toNat s e le_rfl

theorem windows_neg {s e : ℤ} (h : e < s) : windows s e = [] := by
  rw [windows, dif_neg (by omega)]

theorem windows_pos {s e : ℤ} (h : s ≤ e) :
    windows s e = (s, min (s + 364) e) :: windows (min (s + 364) e + 1) e := by
  rw [windows, dif_pos h]

theorem fetchLoop_neg (fetch : ℤ → ℤ → FetchResp) {s e : ℤ} (h : e < s) :
    fetchLoop fetch s e = ([], Except.ok []) := by
  rw [fetchLoop, dif_neg (by omega)]

theorem fetchLoop_notFound (fetch : ℤ → ℤ → FetchResp) {s e : ℤ} (h : s ≤ e)
    (hf : fetch s (min (s + 364) e) = FetchResp.notFound) :
    fetchLoop fetch s e =
      ((s, min (s + 364) e) :: (fetchLoop fetch (min (s + 364) e + 1) e).1,
       (fetchLoop fetch (min (s + 364) e + 1) e).2) := by
  rw [fetchLoop, dif_pos h, hf]

theorem fetchLoop_respErr (fetch : ℤ → ℤ → FetchResp) {s e : ℤ} (h : s ≤ e)
    (hf : fetch s (min (s + 364) e) = FetchResp.err) :
    fetchLoop fetch s e = ([(s, min (s + 364) e)], Except.error ()) := by
  rw [fetchLoop, dif_pos h, hf]

theorem fetchLoop_respOk (fetch : ℤ → ℤ → FetchResp) {s e : ℤ} {pts : List RatePoint}
    (h : s ≤ e) (hf : fetch s (min (s + 364) e) = FetchResp.ok pts) :
    fetchLoop fetch s e =
      ((s, min (s + 364) e) :: (fetchLoop fetch (min (s + 364) e + 1) e).1,
       (fetchLoop fetch (min (s + 364) e + 1) e).2.map (fun l => pts ++ l)) := by
  rw [fetchLoop, dif_pos h, hf]

/-- A nonempty partition starts with the window beginning at `s`. -/
theorem windows_head_start : ∀ s e : ℤ, ∀ w ∈ (windows s e).head?, w.1 = s := by
  intro s e w hw
  rcases lt_or_le e s with h | h
  · rw [windows_neg h] at hw
    simp at hw
  · rw [windows_pos h] at hw
    simp at hw
    rw [← hw]

/-- Every produced window lies inside `[s, e]`, is nonempty, and spans at
most 365 days. -/
theorem windows_mem_span : ∀ s e : ℤ, ∀ w ∈ windows s e,
    s ≤ w.1 ∧ w.1 ≤ w.2 ∧ w.2 ≤ w.1 + 364 ∧ w.2 ≤ e := by
  refine rangeRec _ ?_ ?_
  · intro s e h w hw
    rw [windows_neg h] at hw
    simp at hw
  · intro s e h ih w hw
    rw [windows_pos h] at hw
    rcases List.mem_cons.mp hw with hw1 | hw1
    · rw [hw1]
      show s ≤ s ∧ s ≤ min (s + 364) e ∧ min (s + 364) e ≤ s + 364 ∧ min (s + 364) e ≤ e
      omega
    · rcases ih w hw1 with ⟨h1, h2, h3, h4⟩
      exact ⟨by omega, h2, h3, h4⟩

/-- Consecutive windows are adjacent: the next starts the day after the
previous ends. -/
theorem windows_chain : ∀ s e : ℤ,
    List.Chain' (fun a b : ℤ × ℤ => b.1 = a.2 + 1) (windows s e) := by
  refine rangeRec _ ?_ ?_
  · intro s e h
    rw [windows_neg h]
    exact List.chain'_nil
  · intro s e h ih
    rw [windows_pos h]
    rw [List.chain'_cons']
    refine ⟨?_, ih⟩
    intro b hb
    have := windows_head_start _ _ b hb
    simp only [this]

/-- Exactly-once coverage: each day of `[s, e]` lies in exactly one window,
and days outside `[s, e]` lie in none (no gaps, no overlaps). -/
theorem windows_countP : ∀ s e : ℤ, ∀ d : ℤ,
    (windows s e).countP (fun w => decide (w.1 ≤ d) && decide (d ≤ w.2)) =
      if s ≤ d ∧ d ≤ e then 1 else 0 := by
  refine rangeRec _ ?_ ?_
  · intro s e h d
    rw [windows_neg h]
    rw [if_neg (by omega)]
    rfl
  · intro s e h ih d
    rw [windows_pos h]
    rw [List.countP_cons, ih d]
    simp only [Bool.and_eq_true, decide_eq_true_eq]
    split <;> split <;> split <;> omega

/-- The number of windows is at most the number of days in the range. -/
theorem windows_length : ∀ s e : ℤ,
    (windows s e).length ≤ (e + 1 - s).toNat := by
  refine rangeRec _ ?_ ?_
  · intro s e h
    rw [windows_neg h]
    simp
  · intro s e h ih
    rw [windows_pos h]
    rw [List.length_cons]
    omega

/-- The requests the loop actually issues are an initial segment of the full
window partition (the loop may stop early only on an error). -/
theorem fetchLoop_trace_append (fetch : ℤ → ℤ → FetchResp) : ∀ s e : ℤ,
    ∃ t, (fetchLoop fetch s e).1 ++ t = windows s e := by
  refine rangeRec _ ?_ ?_
  · intro s e h
    rw [fetchLoop_neg fetch h, windows_neg h]
    exact ⟨[], rfl⟩
  · intro s e h ih
    rcases ih with ⟨t, ht⟩
    rw [windows_pos h]
    cases hf : fetch s (min (s + 364) e) with
    | notFound =>
        rw [fetchLoop_notFound fetch h hf]
        exact ⟨t, by rw [List.cons_append, ht]⟩
    | err =>
        rw [fetchLoop_respErr fetch h hf]
        exact ⟨windows (min (s + 364) e + 1) e, rfl⟩
    | ok pts =>
        rw [fetchLoop_respOk fetch h hf]
        exact ⟨t, by rw [List.cons_append, ht]⟩

/-- When no issued window gets a non-404 error, the loop issues exactly one
fetch per window of the partition. -/
theorem fetchLoop_trace_eq (fetch : ℤ → ℤ → FetchResp) : ∀ s e : ℤ,
    (∀ w ∈ windows s e, fetch w.1 w.2 ≠ FetchResp.err) →
    (fetchLoop fetch s e).1 = windows s e := by
  refine rangeRec _ ?_ ?_
  · intro s e h _
    rw [fetchLoop_neg fetch h, windows_neg h]
  · intro s e h ih hne
    have hhead : fetch s (min (s + 364) e) ≠ FetchResp.err := by
      refine hne (s, min (s + 364) e) ?_
      rw [windows_pos h]
      exact List.mem_cons_self _ _
    have htail := ih fun w hw => hne w (by rw [windows_pos h]; exact List.mem_cons_of_mem _ hw)
    cases hf : fetch s (min (s + 364) e) with
    | notFound =>
        rw [fetchLoop_notFound fetch h hf, windows_pos h]
        rw [List.cons.injEq]
        exact ⟨rfl, htail⟩
    | err => exact absurd hf hhead
    | ok pts =>
        rw [fetchLoop_respOk fetch h hf, windows_pos h]
        rw [List.cons.injEq]
        exact ⟨rfl, htail⟩

/-- A range in which every window answers 404 is traversed in full and
yields the empty series without error. -/
theorem fetchLoop_all_notFound (fetch : ℤ → ℤ → FetchResp) : ∀ s e : ℤ,
    (∀ w ∈ windows s e, fetch w.1 w.2 = FetchResp.notFound) →
    fetchLoop fetch s e = (windows s e, Except.ok []) := by
  refine rangeRec _ ?_ ?_
  · intro s e h _
    rw [fetchLoop_neg fetch h, windows_neg h]
  · intro s e h ih hnf
    have hhead : fetch s (min (s + 364) e) = FetchResp.notFound := by
      refine hnf (s, min (s + 364) e) ?_
      rw [windows_pos h]
      exact List.mem_cons_self _ _
    have htail := ih fun w hw => hnf w (by rw [windows_pos h]; exact List.mem_cons_of_mem _ hw)
    rw [fetchLoop_notFound fetch h hhead, windows_pos h, htail]

/-- Whatever the responses, the issued windows are adjacent and nonempty and
their count is bounded by the number of days in the range. -/
theorem fetchLoop_trace_shape (fetch : ℤ → ℤ → FetchResp) (s e : ℤ) :
    (fetchLoop fetch s e).1.length ≤ (e + 1 - s).toNat ∧
    (∀ w ∈ (fetchLoop fetch s e).1, s ≤ w.1 ∧ w.1 ≤ w.2 ∧ w.2 ≤ e) ∧
    List.Chain' (fun a b : ℤ × ℤ => b.1 = a.2 + 1) (fetchLoop fetch s e).1 := by
  rcases fetchLoop_trace_append fetch s e with ⟨t, ht⟩
  refine ⟨?_, ?_, ?_⟩
  · have h1 : (fetchLoop fetch s e).1.length ≤ (windows s e).length := by
      rw [← ht, List.length_append]
      omega
    exact le_trans h1 (windows_length s e)
  · intro w hw
    have hw' : w ∈ windows s e := by
      rw [← ht]
      exact List.mem_append_left _ hw
    rcases windows_mem_span s e w hw' with ⟨h1, h2, _, h4⟩
    exact ⟨h1, h2, h4⟩
  · have hc : List.Chain' (fun a b : ℤ × ℤ => b.1 = a.2 + 1)
        ((fetchLoop fetch s e).1 ++ t) := by
      rw [ht]
      exact windows_chain s e
    exact (List.chain'_append.mp hc).1

/-- If some issued request got a non-404 error, the loop's result is an
error (the exception from `raise_for_status` propagates). -/
theorem fetchLoop_err (fetch : ℤ → ℤ → FetchResp) : ∀ s e : ℤ,
    (∃ w ∈ (fetchLoop fetch s e).1, fetch w.1 w.2 = FetchResp.err) →
    (fetchLoop fetch s e).2 = Except.error () := by
  refine rangeRec _ ?_ ?_
  · intro s e h hex
    rw [fetchLoop_neg fetch h] at hex
    simp at hex
  · intro s e h ih hex
    cases hf : fetch s (min (s + 364) e) with
    | notFound =>
        rw [fetchLoop_notFound fetch h hf] at hex ⊢
        simp only [List.mem_cons] at hex
        rcases hex with ⟨w, hw | hw, hfw⟩
        · rw [hw] at hfw
          rw [hfw] at hf
          cases hf
        · exact ih ⟨w, hw, hfw⟩
    | err => rw [fetchLoop_respErr fetch h hf]
    | ok pts =>
        rw [fetchLoop_respOk fetch h hf] at hex ⊢
        simp only [List.mem_cons] at hex
        rcases hex with ⟨w, hw | hw, hfw⟩
        · rw [hw] at hfw
          rw [hfw] at hf
          cases hf
        · rw [ih ⟨w, hw, hfw⟩]
          rfl

/-! ### Deduplication and sorting -/

theorem dedupByDate_subset : ∀ l : List RatePoint, ∀ p ∈ dedupByDate l, p ∈ l := by
  intro l
  induction l using dedupByDate.induct with
  | case1 =>
      intro p hp
      rw [dedupByDate] at hp
      exact absurd hp (List.not_mem_nil p)
  | case2 p ps ih =>
      intro q hq
      rw [dedupByDate] at hq
      rcases List.mem_cons.mp hq with h1 | h1
      · rw [h1]
        exact List.mem_cons_self _ _
      · exact List.mem_cons_of_mem _ (List.mem_of_mem_filter (ih q h1))

/-- `drop_duplicates(subset="Date")` leaves pairwise distinct dates. -/
theorem dedupByDate_pairwise :
    ∀ l : List RatePoint, (dedupByDate l).Pairwise (fun p q => p.date ≠ q.date) := by
  intro l
  induction l using dedupByDate.induct with
  | case1 =>
      rw [dedupByDate]
      exact List.Pairwise.nil
  | case2 p ps ih =>
      rw [dedupByDate]
      rw [List.pairwise_cons]
      refine ⟨?_, ih⟩
      intro q hq
      have hq' : q ∈ ps.filter (fun r => r.date != p.date) := dedupByDate_subset _ q hq
      have hne := List.of_mem_filter hq'
      simp only [bne_iff_ne, ne_eq] at hne
      exact fun hc => hne hc.symm

theorem sortByDate_perm (l : List RatePoint) : List.Perm (sortByDate l) l :=
  List.perm_insertionSort dateLE l

theorem sortByDate_sorted (l : List RatePoint) : (sortByDate l).Pairwise dateLE :=
  List.sorted_insertionSort dateLE l

/-- Deduplicating then sorting yields strictly increasing dates. -/
theorem sortByDate_dedupByDate_strict (l : List RatePoint) :
    (sortByDate (dedupByDate l)).Pairwise (fun p q => p.date < q.date) := by
  have hne : (sortByDate (dedupByDate l)).Pairwise (fun p q => p.date ≠ q.date) := by
    refine ((sortByDate_perm (dedupByDate l)).pairwise_iff ?_).mpr (dedupByDate_pairwise l)
    intro a b hab
    exact fun hc => hab hc.symm
  have hle := sortByDate_sorted (dedupByDate l)
  have := hle.and hne
  refine this.imp ?_
  intro a b hab
  exact lt_of_le_of_ne hab.1 hab.2

theorem chunked_neg (fetch : ℤ → ℤ → FetchResp) {s e : ℤ} (h : e < s) :
    chunked_dynamics_fetch fetch s e = ([], Except.ok []) := by
  rw [chunked_dynamics_fetch, if_pos h]

theorem chunked_pos (fetch : ℤ → ℤ → FetchResp) {s e : ℤ} (h : s ≤ e) :
    chunked_dynamics_fetch fetch s e =
      ((fetchLoop fetch s e).1,
       (fetchLoop fetch s e).2.map (fun l => sortByDate (dedupByDate l))) := by
  rw [chunked_dynamics_fetch, if_neg (by omega)]

/-! ### Claim theorems for the chunked fetcher -/

/-- C3: for every `start ≤ end`, `chunked_dynamics_fetch` partitions
`[start, end]` into consecutive windows each spanning at most 365 days, in
chronological order, with no gaps and no overlaps (each day of the range is
covered by exactly one window, days outside by none), issuing exactly one
fetch per window; and a 400-day range yields exactly two windows. -/
theorem C3_chunk_partition (fetch : ℤ → ℤ → FetchResp) (s e : ℤ) (hse : s ≤ e)
    (hok : ∀ w ∈ windows s e, fetch w.1 w.2 ≠ FetchResp.err) :
    (∀ w ∈ windows s e, w.1 ≤ w.2 ∧ w.2 - w.1 + 1 ≤ 365) ∧
    List.Chain' (fun a b : ℤ × ℤ => b.1 = a.2 + 1) (windows s e) ∧
    (∀ d : ℤ, (windows s e).countP
        (fun w => decide (w.1 ≤ d) && decide (d ≤ w.2)) =
      if s ≤ d ∧ d ≤ e then 1 else 0) ∧
    (chunked_dynamics_fetch fetch s e).1 = windows s e ∧
    (windows 0 399).length = 2 := by
  refine ⟨?_, windows_chain s e, windows_countP s e, ?_, ?_⟩
  · intro w hw
    rcases windows_mem_span s e w hw with ⟨_, h2, h3, _⟩
    exact ⟨h2, by omega⟩
  · rw [chunked_pos fetch hse]
    exact fetchLoop_trace_eq fetch s e hok
  · rw [windows_pos (by norm_num)]
    rw [windows_pos (by norm_num)]
    rw [windows_neg (by norm_num)]
    rfl

/-- C4: a successful result of `chunked_dynamics_fetch` (concatenated in
window order, deduplicated by date keeping the first occurrence, sorted
ascending by date) has strictly increasing, duplicate-free dates. -/
theorem C4_series_strictly_increasing (fetch : ℤ → ℤ → FetchResp) (s e : ℤ)
    (l : List RatePoint)
    (h : (chunked_dynamics_fetch fetch s e).2 = Except.ok l) :
    l.Pairwise (fun p q => p.date < q.date) := by
  rcases lt_or_le e s with hlt | hle
  · rw [chunked_neg fetch hlt] at h
    cases h
    exact List.Pairwise.nil
  · rw [chunked_pos fetch hle] at h
    cases hres : (fetchLoop fetch s e).2 with
    | error u =>
        rw [hres] at h
        cases h
    | ok raw =>
        rw [hres] at h
        cases h
        exact sortByDate_dedupByDate_strict raw

/-- C5: a 404 for a window contributes an empty partial series and the loop
continues through all remaining windows (an all-404 range gives the empty
series, not an error), while a non-404 failure on any issued window makes
the whole fetch propagate an error. -/
theorem C5_notFound_skips_error_aborts (fetch : ℤ → ℤ → FetchResp) (s e : ℤ) :
    ((∀ w ∈ windows s e, fetch w.1 w.2 = FetchResp.notFound) →
      chunked_dynamics_fetch fetch s e = (windows s e, Except.ok [])) ∧
    ((∃ w ∈ (chunked_dynamics_fetch fetch s e).1, fetch w.1 w.2 = FetchResp.err) →
      (chunked_dynamics_fetch fetch s e).2 = Except.error ()) := by
  constructor
  · intro hnf
    rcases lt_or_le e s with hlt | hle
    · rw [chunked_neg fetch hlt, windows_neg hlt]
    · rw [chunked_pos fetch hle, fetchLoop_all_notFound fetch s e hnf]
      show (windows s e, Except.ok (sortByDate (dedupByDate []))) = _
      rw [dedupByDate]
      rfl
  · intro hex
    rcases lt_or_le e s with hlt | hle
    · rw [chunked_neg fetch hlt] at hex
      simp at hex
    · rw [chunked_pos fetch hle] at hex ⊢
      rw [fetchLoop_err fetch s e hex]
      rfl

/-- C6: for `end < start`, `chunked_dynamics_fetch` returns the empty series
immediately and issues no request at all (empty request trace). -/
theorem C6_inverted_range (fetch : ℤ → ℤ → FetchResp) (s e : ℤ) (h : e < s) :
    chunked_dynamics_fetch fetch s e = ([], Except.ok []) :=
  chunked_neg fetch h

/-- C10: the window loop terminates: the requests issued are consecutive
non-empty windows (each iteration moves the cursor from `w.1` to `w.2 + 1`
with `w.2 ≥ w.1`), and there are at most `end - start + 1` iterations. -/
theorem C10_loop_terminates (fetch : ℤ → ℤ → FetchResp) (s e : ℤ) :
    (chunked_dynamics_fetch fetch s e).1.length ≤ (e - s + 1).toNat ∧
    (∀ w ∈ (chunked_dynamics_fetch fetch s e).1, s ≤ w.1 ∧ w.1 ≤ w.2 ∧ w.2 ≤ e) ∧
    List.Chain' (fun a b : ℤ × ℤ => b.1 = a.2 + 1)
      (chunked_dynamics_fetch fetch s e).1 := by
  rcases lt_or_le e s with hlt | hle
  · rw [chunked_neg fetch hlt]
    refine ⟨by simp, by simp, List.chain'_nil⟩
  · rw [chunked_pos fetch hle]
    rcases fetchLoop_trace_shape fetch s e with ⟨h1, h2, h3⟩
    refine ⟨?_, h2, h3⟩
    have : (e + 1 - s).toNat = (e - s + 1).toNat := by omega
    rw [← this]
    exact h1

theorem C3_witness :
    (0 : ℤ) ≤ 399 ∧
    (chunked_dynamics_fetch oracleNF 0 399).1 = windows 0 399 ∧
    (windows (0 : ℤ) 399).length = 2 := by
  have h := C3_chunk_partition oracleNF 0 399 (by norm_num)
      (fun w _ hc => FetchResp.noConfusion hc)
  exact ⟨by norm_num, h.2.2.2.1, h.2.2.2.2⟩

theorem C4_witness :
    (chunked_dynamics_fetch oracleDup 0 5).2 =
      Except.ok [RatePoint.mk 0 1, RatePoint.mk 1 2] ∧
    List.Pairwise (fun p q : RatePoint => p.date < q.date)
      [RatePoint.mk 0 1, RatePoint.mk 1 2] := by
  have h : (chunked_dynamics_fetch oracleDup 0 5).2 =
      Except.ok [RatePoint.mk 0 1, RatePoint.mk 1 2] := by
    rw [chunked_pos oracleDup (by norm_num)]
    rw [fetchLoop_respOk oracleDup (by norm_num) rfl]
    rw [fetchLoop_neg oracleDup (by norm_num)]
    simp [Except.map, dedupByDate, sortByDate, List.insertionSort,
      List.orderedInsert, dateLE, List.filter]
  exact ⟨h, C4_series_strictly_increasing oracleDup 0 5 _ h⟩

theorem C5_witness :
    chunked_dynamics_fetch oracleNF 0 399 = (windows 0 399, Except.ok []) ∧
    (chunked_dynamics_fetch oracleErr 0 399).2 = Except.error () := by
  constructor
  · exact (C5_notFound_skips_error_aborts oracleNF 0 399).1 (fun w _ => rfl)
  · apply (C5_notFound_skips_error_aborts oracleErr 0 399).2
    refine ⟨(0, 364), ?_, rfl⟩
    rw [chunked_pos oracleErr (by norm_num)]
    rw [fetchLoop_respErr oracleErr (by norm_num) rfl]
    norm_num

theorem C6_witness :
    (3 : ℤ) < 5 ∧ chunked_dynamics_fetch oracleErr 5 3 = ([], Except.ok []) :=
  ⟨by norm_num, C6_inverted_range oracleErr 5 3 (by norm_num)⟩

/-! ### Helper lemmas for the resolver and aggregator -/

theorem head?_filter_eq_find? {α : Type} (p : α → Bool) :
    ∀ l : List α, (l.filter p).head? = l.find? p := by
  intro l
  induction l with
  | nil => rfl
  | cons a l ih => by_cases h : p a <;> simp [List.filter_cons, List.find?, h, ih]

theorem filter_ne_nil_of_any {α : Type} {p : α → Bool} {l : List α}
    (h : l.any p = true) : l.filter p ≠ [] := by
  rcases List.any_eq_true.mp h with ⟨a, ha, hpa⟩
  intro hc
  have hmem : a ∈ l.filter p := List.mem_filter.mpr ⟨ha, hpa⟩
  rw [hc] at hmem
  exact absurd hmem (List.not_mem_nil a)

theorem filter_eq_nil_of_not_any {α : Type} {p : α → Bool} {l : List α}
    (h : l.any p = false) : l.filter p = [] := by
  rw [List.filter_eq_nil_iff]
  intro a ha
  have := List.any_eq_false.mp h a ha
  simp [this]

theorem isEmpty_false_of_ne_nil {α : Type} {l : List α} (h : l ≠ []) :
    l.isEmpty = false := by
  cases l with
  | nil => exact absurd rfl h
  | cons a l => rfl

/-- A successful resolution implies the code matched at least one directory
row (so the aggregator took the `else` branch of the emptiness check). -/
theorem resolve_rows_ne_nil {code : String} {dir : List CurrencyRecord}
    {s e : ℤ} {r : CurrencyRecord} (h : resolve code dir s e = some r) :
    matchingRows code dir ≠ [] := by
  intro hc
  rw [resolve] at h
  simp only [hc, List.filter_nil] at h
  cases h

/-- With a resolved record `r`, the per-code step is entirely determined by
the chunked fetch on the clamped range
`[max s r.dateStart, min e r.dateEnd]`. -/
theorem processCode_resolved (fetch : ℤ → ℤ → ℤ → FetchResp)
    (dir : List CurrencyRecord) (s e : ℤ) (code : String) (r : CurrencyRecord)
    (h : resolve code dir s e = some r) :
    processCode fetch dir s e code =
      match (chunked_dynamics_fetch (fetch r.curId)
              (max s r.dateStart) (min e r.dateEnd)).2 with
      | .error _ => Except.error ()
      | .ok pts =>
          Except.ok (if pts.isEmpty then CodeOutcome.emptyDynamics
                     else CodeOutcome.column pts) := by
  rw [processCode]
  rw [isEmpty_false_of_ne_nil (resolve_rows_ne_nil h), h]
  simp only [Bool.false_eq_true, if_false]
  cases hres : (chunked_dynamics_fetch (fetch r.curId)
      (max s r.dateStart) (min e r.dateEnd)).2 with
  | error u => rfl
  | ok pts => by_cases hp : pts.isEmpty <;> simp [hp]

/-- Any code whose per-code step raises makes the whole aggregation return
the error (the codes after it are never reported). -/
theorem rates_for_currencies_error (fetch : ℤ → ℤ → ℤ → FetchResp)
    (dir : List CurrencyRecord) (s e : ℤ) :
    ∀ codes : List String,
      (∃ c ∈ codes, processCode fetch dir s e c = Except.error ()) →
      rates_for_currencies fetch codes dir s e = Except.error () := by
  intro codes
  induction codes with
  | nil =>
      intro h
      rcases h with ⟨c, hc, _⟩
      exact absurd hc (List.not_mem_nil c)
  | cons code rest ih =>
      intro h
      rw [rates_for_currencies]
      rcases h with ⟨c, hc, hcerr⟩
      rcases List.mem_cons.mp hc with h1 | h1
      · rw [h1] at hcerr
        rw [hcerr]
      · cases hp : processCode fetch dir s e code with
        | error u => rfl
        | ok o =>
            rw [ih ⟨c, h1, hcerr⟩]

/-! ### Claim theorems for the resolver, aggregator and comparator -/

/-- C7: the resolver filters the directory to the rows matching the code,
prefers the first (in directory order) row whose validity window covers all
of `[s, e]`, otherwise falls back to the first row whose window covers `s`,
and when the code is absent, or no row qualifies, the aggregator skips the
code with a user-visible message (`st.warning` resp. `st.info`) instead of
failing.  (Being a function of its inputs, the selection is deterministic.) -/
theorem C7_resolver_policy (fetch : ℤ → ℤ → ℤ → FetchResp) (code : String)
    (dir : List CurrencyRecord) (s e : ℤ) :
    ((matchingRows code dir).any (coversFull s e) = true →
      resolve code dir s e = (matchingRows code dir).find? (coversFull s e)) ∧
    ((matchingRows code dir).any (coversFull s e) = false →
      resolve code dir s e = (matchingRows code dir).find? (coversStart s)) ∧
    (matchingRows code dir = [] →
      processCode fetch dir s e code = Except.ok CodeOutcome.notInList) ∧
    (matchingRows code dir ≠ [] → resolve code dir s e = none →
      processCode fetch dir s e code = Except.ok CodeOutcome.noValidId) := by
  refine ⟨?_, ?_, ?_, ?_⟩
  · intro h
    rw [resolve]
    simp only [isEmpty_false_of_ne_nil (filter_ne_nil_of_any h),
      Bool.false_eq_true, if_false]
    exact head?_filter_eq_find? _ _
  · intro h
    rw [resolve]
    simp only [filter_eq_nil_of_not_any h, List.isEmpty_nil, if_true]
    exact head?_filter_eq_find? _ _
  · intro h
    rw [processCode, h]
    rfl
  · intro hne hnone
    rw [processCode, isEmpty_false_of_ne_nil hne, hnone]
    rfl

theorem C7_witness :
    resolve "USD" dir7 0 10 = some ⟨1, "USD", 1, "US Dollar", 0, 100⟩ ∧
    resolve "EUR" dir7 0 10 = some ⟨3, "EUR", 1, "Euro", 0, 5⟩ ∧
    processCode oracleNF3 dir7 0 10 "GBP" = Except.ok CodeOutcome.notInList ∧
    processCode oracleNF3 dir7 0 10 "JPY" = Except.ok CodeOutcome.noValidId := by
  refine ⟨?_, ?_, ?_, ?_⟩
  · rw [(C7_resolver_policy oracleNF3 "USD" dir7 0 10).1 rfl]
    rfl
  · rw [(C7_resolver_policy oracleNF3 "EUR" dir7 0 10).2.1 rfl]
    rfl
  · exact (C7_resolver_policy oracleNF3 "GBP" dir7 0 10).2.2.1 rfl
  · exact (C7_resolver_policy oracleNF3 "JPY" dir7 0 10).2.2.2
      (by decide) rfl

/-- C8: once a record `r` is resolved, the range handed to
`chunked_dynamics_fetch` is exactly `[max s r.dateStart, min e r.dateEnd]`,
which contains precisely the days lying both in the requested `[s, e]` and
in the record's validity window `[r.dateStart, r.dateEnd]`. -/
theorem C8_fetch_range_clamped (fetch : ℤ → ℤ → ℤ → FetchResp) (code : String)
    (dir : List CurrencyRecord) (s e : ℤ) (r : CurrencyRecord)
    (h : resolve code dir s e = some r) :
    processCode fetch dir s e code =
      (match (chunked_dynamics_fetch (fetch r.curId)
              (max s r.dateStart) (min e r.dateEnd)).2 with
       | .error _ => Except.error ()
       | .ok pts =>
           Except.ok (if pts.isEmpty then CodeOutcome.emptyDynamics
                      else CodeOutcome.column pts)) ∧
    (∀ d : ℤ, (max s r.dateStart ≤ d ∧ d ≤ min e r.dateEnd) ↔
      ((s ≤ d ∧ d ≤ e) ∧ (r.dateStart ≤ d ∧ d ≤ r.dateEnd))) :=
  ⟨processCode_resolved fetch dir s e code r h, fun d => by omega⟩

theorem C8_witness :
    processCode oracleNF3 dir7 0 10 "EUR" = Except.ok CodeOutcome.emptyDynamics ∧
    ((max (0 : ℤ) 0 ≤ 3 ∧ (3 : ℤ) ≤ min 10 5) ↔
      (((0 : ℤ) ≤ 3 ∧ (3 : ℤ) ≤ 10) ∧ ((0 : ℤ) ≤ 3 ∧ (3 : ℤ) ≤ 5))) := by
  have h := C8_fetch_range_clamped oracleNF3 "EUR" dir7 0 10
      ⟨3, "EUR", 1, "Euro", 0, 5⟩ rfl
  constructor
  · rw [h.1]
    have hch : (chunked_dynamics_fetch (oracleNF3 3)
        (max (0 : ℤ) 0) (min (10 : ℤ) 5)).2 = Except.ok [] := by
      have hmax : max (0 : ℤ) 0 = 0 := by norm_num
      have hmin : min (10 : ℤ) 5 = 5 := by norm_num
      rw [hmax, hmin]
      rw [chunked_pos _ (by norm_num)]
      rw [fetchLoop_all_notFound _ _ _ (fun w _ => rfl)]
      show Except.ok (sortByDate (dedupByDate [])) = _
      rw [dedupByDate]
      rfl
    rw [hch]
    rfl
  · exact h.2 3

/-- C2 (amended): the aggregator has no per-code error handling — if the
chunked fetch for a resolved code fails with a non-404 error, the exception
propagates out of `rates_for_currencies` itself, aborting the whole
multi-currency aggregation: the call returns the error and produces no
table at all (so no columns for the remaining codes either). -/
theorem C2_error_aborts_aggregation (fetch : ℤ → ℤ → ℤ → FetchResp)
    (codes : List String) (dir : List CurrencyRecord) (s e : ℤ)
    (h : ∃ c ∈ codes, ∃ r, resolve c dir s e = some r ∧
      (chunked_dynamics_fetch (fetch r.curId)
        (max s r.dateStart) (min e r.dateEnd)).2 = Except.error ()) :
    rates_for_currencies fetch codes dir s e = Except.error () ∧
    ∀ t, rates_for_currencies fetch codes dir s e ≠ Except.ok t := by
  have main : rates_for_currencies fetch codes dir s e = Except.error () := by
    refine rates_for_currencies_error fetch dir s e codes ?_
    rcases h with ⟨c, hc, r, hres, hch⟩
    refine ⟨c, hc, ?_⟩
    rw [processCode_resolved fetch dir s e c r hres, hch]
  refine ⟨main, ?_⟩
  intro t hc
  rw [main] at hc
  cases hc

/-- C2 counterexample: with code "AAA" resolving to identifier 1 whose
fetch fails with a non-404 error and code "BBB" healthy, the aggregator
does not catch the failure and produce a table with the "BBB" column — it
returns the propagated error, producing no table at all. -/
theorem C2_counterexample :
    rates_for_currencies oracleErrA ["AAA", "BBB"] dirC 0 10 =
      Except.error () := by
  have hch : (chunked_dynamics_fetch (oracleErrA 1) 0 10).2 =
      Except.error () := by
    rw [chunked_pos _ (by norm_num)]
    rw [fetchLoop_respErr _ (by norm_num) rfl]
    rfl
  have hp : processCode oracleErrA dirC 0 10 "AAA" = Except.error () := by
    rw [processCode_resolved oracleErrA dirC 0 10 "AAA"
      ⟨1, "AAA", 1, "Currency A", 0, 1000⟩ rfl]
    simp [hch]
  rw [rates_for_currencies, hp]

theorem C2_witness :
    rates_for_currencies oracleErrA ["BBB", "AAA"] dirC 0 10 =
      Except.error () := by
  have hch : (chunked_dynamics_fetch (oracleErrA 1) 0 10).2 =
      Except.error () := by
    rw [chunked_pos _ (by norm_num)]
    rw [fetchLoop_respErr _ (by norm_num) rfl]
    rfl
  have hmax : max (0 : ℤ) 0 = 0 := by norm_num
  have hmin : min (10 : ℤ) 1000 = 10 := by norm_num
  exact (C2_error_aborts_aggregation oracleErrA ["BBB", "AAA"] dirC 0 10
    ⟨"AAA", by decide, ⟨1, "AAA", 1, "Currency A", 0, 1000⟩, rfl,
      by rw [hmax, hmin]; exact hch⟩).1

/-- C1: the claim is the code's own documented intent (the docstring of
`rates_for_currencies` promises columns "normalized to 1 unit" and the page
footer promises normalization to 1 foreign-currency unit), but the code
never divides by `Cur_Scale` (the lookup is commented out at line 110): the
column for JPY (scale 100) holds the raw `Cur_OfficialRate` 5/2, not the
normalized (5/2)/100. -/
theorem C1_scale_not_applied :
    rates_for_currencies oracleJ ["JPY"] dirJ 0 10 =
      Except.ok [("JPY", [RatePoint.mk 0 (5 / 2)])] ∧
    dirJ.map CurrencyRecord.scale = [100] ∧
    (5 / 2 : ℚ) ≠ (5 / 2 : ℚ) / 100 := by
  have hch : (chunked_dynamics_fetch (oracleJ 292) 0 10).2 =
      Except.ok [RatePoint.mk 0 (5 / 2)] := by
    rw [chunked_pos _ (by norm_num)]
    rw [fetchLoop_respOk _ (by norm_num) rfl]
    rw [fetchLoop_neg _ (by norm_num)]
    simp [Except.map, dedupByDate, sortByDate, List.insertionSort,
      List.orderedInsert, dateLE, List.filter]
  have hp : processCode oracleJ dirJ 0 10 "JPY" =
      Except.ok (CodeOutcome.column [RatePoint.mk 0 (5 / 2)]) := by
    rw [processCode_resolved oracleJ dirJ 0 10 "JPY"
      ⟨292, "JPY", 100, "Japanese yen", 0, 100000⟩ rfl]
    simp [hch]
  refine ⟨?_, by decide, by norm_num⟩
  rw [rates_for_currencies, hp, rates_for_currencies]

/-- C9 counterexample: when the compare-date snapshot contains the code
with rate 0 and the reference rate is 3, the absolute delta is the finite
number 3 (not an unavailable sentinel) and the percent delta is `+inf`,
displayed as a formatted number (`pd.notna(inf)` holds), not as "—". -/
theorem C9_counterexample :
    weeklyChange (Except.ok [("EUR", (0 : ℚ))]) "EUR" 3 =
      (FVal.num 3, FVal.pinf) ∧
    displayChangePct FVal.pinf = some FVal.pinf ∧
    FVal.num 3 ≠ FVal.nan := by
  refine ⟨?_, rfl, by simp⟩
  norm_num [weeklyChange, rate7dAgo, FVal.sub, FVal.div, FVal.mul, List.find?]

/-- C9 (amended): a code missing from the compare-date snapshot (including
the case of a failed snapshot fetch) yields `NaN` for both deltas and the
"—" unavailable sentinel for the displayed percent, with no exception (the
computation is total); but a compare-date rate that is present and zero
yields the finite reference rate as absolute delta and a signed infinity
(NaN only when the reference is also zero) as percent delta, which for a
nonzero reference is displayed as a number, not as the sentinel. -/
theorem C9_missing_vs_zero_denominator
    (rates7src : Except Unit (List (String × ℚ))) (code : String) (rate : ℚ) :
    (rate7dAgo rates7src code = FVal.nan →
      weeklyChange rates7src code rate = (FVal.nan, FVal.nan) ∧
      displayChangePct (weeklyChange rates7src code rate).2 = none) ∧
    (∀ u : Unit, rates7src = Except.error u →
      rate7dAgo rates7src code = FVal.nan) ∧
    (∀ l, rates7src = Except.ok l → l.find? (fun p => p.1 == code) = none →
      rate7dAgo rates7src code = FVal.nan) ∧
    (rate7dAgo rates7src code = FVal.num 0 →
      (weeklyChange rates7src code rate).1 = FVal.num rate ∧
      (weeklyChange rates7src code rate).2 =
        (if rate = 0 then FVal.nan
         else if 0 < rate then FVal.pinf else FVal.ninf) ∧
      (rate ≠ 0 →
        displayChangePct (weeklyChange rates7src code rate).2 ≠ none)) := by
  refine ⟨?_, ?_, ?_, ?_⟩
  · intro h
    rw [weeklyChange, h]
    exact ⟨rfl, rfl⟩
  · intro u hu
    rw [hu, rate7dAgo]
    rfl
  · intro l hl hfind
    rw [hl, rate7dAgo]
    simp only [hfind]
  · intro h
    rw [weeklyChange, h]
    refine ⟨by simp [FVal.sub], ?_, ?_⟩
    · show FVal.mul (FVal.div (FVal.num (rate - 0)) (FVal.num 0)) (FVal.num 100) = _
      simp only [FVal.div, sub_zero]
      by_cases h0 : rate = 0
      · simp [h0, FVal.mul]
      · by_cases hpos : 0 < rate
        · simp [h0, hpos, FVal.mul]
        · simp [h0, hpos, FVal.mul]
    · intro h0
      show displayChangePct
        (FVal.mul (FVal.div (FVal.num (rate - 0)) (FVal.num 0)) (FVal.num 100)) ≠ none
      simp only [FVal.div, sub_zero]
      by_cases hpos : 0 < rate
      · simp [h0, hpos, FVal.mul, displayChangePct]
      · simp [h0, hpos, FVal.mul, displayChangePct]

theorem C9_witness :
    weeklyChange (Except.ok [("USD", (2 : ℚ))]) "EUR" 3 = (FVal.nan, FVal.nan) ∧
    displayChangePct (weeklyChange (Except.ok [("USD", (2 : ℚ))]) "EUR" 3).2 =
      none ∧
    (weeklyChange (Except.ok [("EUR", (0 : ℚ))]) "EUR" 3).1 = FVal.num 3 := by
  have h1 := (C9_missing_vs_zero_denominator
      (Except.ok [("USD", (2 : ℚ))]) "EUR" 3).1 rfl
  have h2 := (C9_missing_vs_zero_denominator
      (Except.ok [("EUR", (0 : ℚ))]) "EUR" 3).2.2.2 rfl
  exact ⟨h1.1, h1.2, h2.1⟩

end Exrates
